import Mathlib

/-!
Shallow embedding of the `actix-actor-pool` crate (src/lib.rs).

The crate provides a round-robin pool of supervised actix actors:

* `Pool { workers: Vec<Addr<A>>, current: Arc<AtomicUsize> }`
* `Pool::new(size, init_fn)` starts `size` supervised workers.
* `next_worker` does `current.fetch_add(1, SeqCst)` and returns
  `workers[fetched % workers.len()].clone()`.
* `do_send` selects a worker and fires a message, ignoring the outcome.
* `send` selects a worker and returns the substrate's
  `Result<M::Result, MailboxError>` verbatim.

Modelling conventions:

* `usize` is modelled as `Nat` reduced modulo `2 ^ 64`; `AtomicUsize::fetch_add`
  wraps on overflow, so the stored cursor is always `< 2 ^ 64`.
* A Rust panic (indexing / remainder by zero on an empty worker list) is
  modelled as `Option.none`.
* The actix mailbox substrate is out of scope for the crate; it enters the
  model as an explicit delivery function: `α → μ → DeliveryStatus` for the
  fire-and-forget path and `α → μ → Except MailboxError ρ` for the
  request/response path, where `α` is the worker-handle type and `μ` the
  message type.
* The effectful zero-argument factory `init_fn: Fn() -> A` (wrapped in
  `Supervisor::start`) is modelled in state-passing style as
  `σ → α × σ`: one application is one factory invocation producing one
  started worker handle.
* The `current` counter is only ever touched through the single atomic
  read-modify-write `fetch_add`, so every concurrent execution linearizes
  into a sequence of calls; sequences of calls are therefore the faithful
  picture of any interleaving.
-/

namespace ActorPool

/-- The modulus of `usize` arithmetic (64-bit targets); `AtomicUsize::fetch_add`
wraps modulo this value. -/
def USIZE : Nat := 2 ^ 64

/-- actix `MailboxError`: the substrate-level delivery failure returned by
`Addr::send` when the mailbox is closed or the wait timed out. -/
inductive MailboxError where
  | closed
  | timeout
deriving DecidableEq

/-- Substrate outcome of a fire-and-forget enqueue (`Addr::do_send`): the
message is either accepted by the mailbox or dropped (worker gone /
mailbox closed). actix reports neither to the caller. -/
inductive DeliveryStatus where
  | delivered
  | dropped
deriving DecidableEq

/-- `Pool<A> { workers: Vec<Addr<A>>, current: Arc<AtomicUsize> }`.
`α` is the opaque worker-handle type (`Addr<A>`); the atomic counter is its
stored `Nat` value (always `< USIZE`, maintained by `fetch_add`'s wrap). -/
structure Pool (α : Type) where
  workers : List α
  current : Nat
deriving DecidableEq

/-- The worker-creation loop inside `Pool::new`:
`(0..size).map(|_| Supervisor::start(move |_| init_fn())).collect()`.
Each step applies the effectful factory once (modelled state-passing) and
conses the resulting handle; handles end up in creation order. -/
def newWorkers (init_fn : σ → α × σ) : Nat → σ → List α × σ
  | 0, s => ([], s)
  | n + 1, s =>
    let step := init_fn s
    let rest := newWorkers init_fn n step.2
    (step.1 :: rest.1, rest.2)

/-- `Pool::new(size, init_fn)`: eagerly start `size` supervised workers and
store their handles; the cursor starts at `0` (`AtomicUsize::new(0)`).
Returns the pool together with the factory's final effect state. -/
def new (size : Nat) (init_fn : σ → α × σ) (s : σ) : Pool α × σ :=
  let ws := newWorkers init_fn size s
  (⟨ws.1, 0⟩, ws.2)

/-- `Pool::next_worker`:
`let current = self.current.fetch_add(1, Ordering::SeqCst);`
`let index = current % self.workers.len();`
`self.workers[index].clone()`.
Returns the selected handle and the pool with the incremented cursor.
On an empty worker list, `current % 0` panics in Rust (remainder by zero),
modelled as `none`; the lookup `workers[index]?` fails exactly then. -/
def next_worker (p : Pool α) : Option (α × Pool α) :=
  match p.workers[p.current % p.workers.length]? with
  | some w => some (w, ⟨p.workers, (p.current + 1) % USIZE⟩)
  | none => none

/-- `Pool::do_send(msg)`: select the next worker and fire the message.
`Addr::do_send` delivers unconditionally and reports nothing: both substrate
outcomes produce the same unit result. -/
def do_send (p : Pool α) (df : α → μ → DeliveryStatus) (m : μ) :
    Option (Unit × Pool α) :=
  (next_worker p).map fun wp =>
    match df wp.1 m with
    | DeliveryStatus.delivered => ((), wp.2)
    | DeliveryStatus.dropped => ((), wp.2)

/-- `Pool::send(msg).await`: select the next worker and return the substrate's
`Result<M::Result, MailboxError>` verbatim (`actor.send(msg).await`). -/
def send (p : Pool α) (dr : α → μ → Except MailboxError ρ) (m : μ) :
    Option (Except MailboxError ρ × Pool α) :=
  (next_worker p).map fun wp => (dr wp.1 m, wp.2)

/-- One dispatch call against the pool, in either delivery mode, carrying its
message. -/
inductive Call (μ : Type) where
  | fire (m : μ)
  | request (m : μ)

/-- Run a sequence of calls (any mix of the two delivery modes), recording for
each call the pair (fetched cursor value, derived worker index) that
`next_worker` computes, and returning the final pool. `none` models a panic
at some call. -/
def callTrace (df : α → μ → DeliveryStatus) (dr : α → μ → Except MailboxError ρ) :
    Pool α → List (Call μ) → Option (List (Nat × Nat) × Pool α)
  | p, [] => some ([], p)
  | p, Call.fire m :: cs =>
    match do_send p df m with
    | none => none
    | some up =>
      match callTrace df dr up.2 cs with
      | none => none
      | some tq => some ((p.current, p.current % p.workers.length) :: tq.1, tq.2)
  | p, Call.request m :: cs =>
    match send p dr m with
    | none => none
    | some rp =>
      match callTrace df dr rp.2 cs with
      | none => none
      | some tq => some ((p.current, p.current % p.workers.length) :: tq.1, tq.2)

/-- The sequence of worker indices selected by a run of calls. -/
def selectedIndices (df : α → μ → DeliveryStatus)
    (dr : α → μ → Except MailboxError ρ) (p : Pool α) (cs : List (Call μ)) :
    Option (List Nat) :=
  (callTrace df dr p cs).map fun tq => tq.1.map Prod.snd

/-- The sequence of cursor values fetched (returned by `fetch_add`) during a
run of calls. -/
def fetchedValues (df : α → μ → DeliveryStatus)
    (dr : α → μ → Except MailboxError ρ) (p : Pool α) (cs : List (Call μ)) :
    Option (List Nat) :=
  (callTrace df dr p cs).map fun tq => tq.1.map Prod.fst

/-! ### Basic facts about the embedded operations -/

lemma USIZE_pos : 0 < USIZE :=
  Nat.pos_pow_of_pos 64 (by decide)

lemma next_worker_nonempty (ws : List α) (c : Nat) (h : 0 < ws.length) :
    next_worker ⟨ws, c⟩
      = some (ws.get ⟨c % ws.length, Nat.mod_lt c h⟩, ⟨ws, (c + 1) % USIZE⟩) := by
  unfold next_worker
  simp [List.getElem?_eq_getElem (Nat.mod_lt c h)]

lemma do_send_step (ws : List α) (c : Nat) (h : 0 < ws.length)
    (df : α → μ → DeliveryStatus) (m : μ) :
    do_send ⟨ws, c⟩ df m = some ((), ⟨ws, (c + 1) % USIZE⟩) := by
  rw [do_send, next_worker_nonempty ws c h]
  show some (match df (ws.get ⟨c % ws.length, Nat.mod_lt c h⟩) m with
      | DeliveryStatus.delivered => ((), (⟨ws, (c + 1) % USIZE⟩ : Pool α))
      | DeliveryStatus.dropped => ((), ⟨ws, (c + 1) % USIZE⟩))
    = some ((), ⟨ws, (c + 1) % USIZE⟩)
  cases df (ws.get ⟨c % ws.length, Nat.mod_lt c h⟩) m <;> rfl

lemma send_step (ws : List α) (c : Nat) (h : 0 < ws.length)
    (dr : α → μ → Except MailboxError ρ) (m : μ) :
    send ⟨ws, c⟩ dr m
      = some (dr (ws.get ⟨c % ws.length, Nat.mod_lt c h⟩) m, ⟨ws, (c + 1) % USIZE⟩) := by
  rw [send, next_worker_nonempty ws c h]
  rfl

lemma newWorkers_length (init_fn : σ → α × σ) :
    ∀ (n : Nat) (s : σ), (newWorkers init_fn n s).1.length = n := by
  intro n
  induction n with
  | zero => intro s; rfl
  | succ n ih =>
    intro s
    show ((init_fn s).1 :: (newWorkers init_fn n (init_fn s).2).1).length = n + 1
    rw [List.length_cons, ih]

lemma new_workers_length (size : Nat) (init_fn : σ → α × σ) (s : σ) :
    (new size init_fn s).1.workers.length = size :=
  newWorkers_length init_fn size s

/-- Running the worker-creation loop with an invocation-counting factory:
the counter advances by one per invocation and the produced handles appear in
creation order. -/
lemma newWorkers_counting (make : Nat → α) :
    ∀ (n s : Nat),
      newWorkers (fun t => (make t, t + 1)) n s
        = ((List.range n).map (fun i => make (s + i)), s + n) := by
  intro n
  induction n with
  | zero => intro s; rfl
  | succ n ih =>
    intro s
    show (make s :: (newWorkers (fun t => (make t, t + 1)) n (s + 1)).1,
          (newWorkers (fun t => (make t, t + 1)) n (s + 1)).2)
      = ((List.range (n + 1)).map (fun i => make (s + i)), s + (n + 1))
    rw [ih (s + 1), List.range_succ_eq_map, List.map_cons, List.map_map]
    refine congrArg₂ Prod.mk (congrArg₂ List.cons (by rw [Nat.add_zero]) ?_) (by omega)
    refine List.map_congr_left ?_
    intro a _
    show make (s + 1 + a) = make (s + Nat.succ a)
    refine congrArg make (by omega)

/-- Peeling one call off the expected trace: the head records the cursor `c`
and the tail is the expected trace restarted from the incremented cursor. -/
lemma trace_cons_eq (S c n : Nat) (hcw : c < USIZE) (hc : c + (n + 1) ≤ USIZE) :
    (c, c % S) :: ((List.range n).map fun i =>
        ((c + 1) % USIZE + i, ((c + 1) % USIZE + i) % S))
      = (List.range (n + 1)).map fun i => (c + i, (c + i) % S) := by
  rcases Nat.lt_or_ge (c + 1) USIZE with hlt | hge
  · rw [Nat.mod_eq_of_lt hlt, List.range_succ_eq_map, List.map_cons, List.map_map]
    refine congrArg₂ List.cons (by rw [Nat.add_zero]) ?_
    refine List.map_congr_left ?_
    intro a _
    show (c + 1 + a, (c + 1 + a) % S) = (c + Nat.succ a, (c + Nat.succ a) % S)
    have hca : c + 1 + a = c + Nat.succ a := by omega
    rw [hca]
  · have hn : n = 0 := by omega
    subst hn
    rw [List.range_zero, List.map_nil]
    show [(c, c % S)] = List.map (fun i => (c + i, (c + i) % S)) (List.range (0 + 1))
    rw [List.range_succ_eq_map, List.range_zero, List.map_nil, List.map_cons,
      List.map_nil, Nat.add_zero]

/-- The trace of a mixed run of `do_send`/`send` calls, driven from an
arbitrary cursor `c < USIZE`, as long as the run stays within `usize` range:
call `i` fetches cursor value `c + i` and selects index `(c + i) % size`. -/
lemma callTrace_run (df : α → μ → DeliveryStatus) (dr : α → μ → Except MailboxError ρ)
    (ws : List α) (h : 0 < ws.length) :
    ∀ (cs : List (Call μ)) (c : Nat), c < USIZE → c + cs.length ≤ USIZE →
      callTrace df dr ⟨ws, c⟩ cs =
        some ((List.range cs.length).map (fun i => (c + i, (c + i) % ws.length)),
              ⟨ws, (c + cs.length) % USIZE⟩) := by
  intro cs
  induction cs with
  | nil =>
    intro c hcw _
    rw [List.length_nil, List.range_zero, List.map_nil, Nat.add_zero,
      Nat.mod_eq_of_lt hcw]
    rfl
  | cons k cs ih =>
    intro c hcw hc
    rw [List.length_cons] at hc
    have hc1 : c + 1 ≤ USIZE := by omega
    have htail : (c + 1) % USIZE + cs.length ≤ USIZE := by
      rcases Nat.lt_or_ge (c + 1) USIZE with hlt | hge
      · rw [Nat.mod_eq_of_lt hlt]; omega
      · have he : c + 1 = USIZE := by omega
        have hn : cs.length = 0 := by omega
        rw [he, Nat.mod_self, hn]
        exact Nat.le_of_lt USIZE_pos
    have hrec := ih ((c + 1) % USIZE) (Nat.mod_lt (c + 1) USIZE_pos) htail
    have hlist : (c, c % ws.length) :: ((List.range cs.length).map fun i =>
          ((c + 1) % USIZE + i, ((c + 1) % USIZE + i) % ws.length))
        = (List.range (cs.length + 1)).map fun i => (c + i, (c + i) % ws.length) :=
      trace_cons_eq ws.length c cs.length hcw hc
    have hfin : ((c + 1) % USIZE + cs.length) % USIZE = (c + (cs.length + 1)) % USIZE := by
      rcases Nat.lt_or_ge (c + 1) USIZE with hlt | hge
      · rw [Nat.mod_eq_of_lt hlt]
        refine congrArg (fun t => t % USIZE) (by omega)
      · have hn : cs.length = 0 := by omega
        rw [hn]
        show (c + 1) % USIZE % USIZE = (c + 1) % USIZE
        exact Nat.mod_eq_of_lt (Nat.mod_lt (c + 1) USIZE_pos)
    cases k with
    | fire m =>
      simp only [callTrace, do_send_step ws c h df m, hrec, List.length_cons]
      rw [hlist, hfin]
    | request m =>
      simp only [callTrace, send_step ws c h dr m, hrec, List.length_cons]
      rw [hlist, hfin]

lemma map_mod_range_self (S : Nat) :
    (List.range S).map (fun i => i % S) = List.range S := by
  have h1 : (List.range S).map (fun i => i % S) = (List.range S).map id :=
    List.map_congr_left (fun a ha => Nat.mod_eq_of_lt (List.mem_range.mp ha))
  rw [h1, List.map_id]

/-- The first `k * S` values of `i % S` are `0, …, S-1` repeated `k` times. -/
lemma map_mod_range_mul (S : Nat) :
    ∀ k : Nat, (List.range (k * S)).map (fun i => i % S)
      = (List.replicate k (List.range S)).flatten := by
  intro k
  induction k with
  | zero => rw [Nat.zero_mul]; rfl
  | succ k ih =>
    rw [Nat.succ_mul, List.range_add, List.map_append, ih, List.map_map]
    have hblock : (List.range S).map ((fun i => i % S) ∘ fun x => k * S + x)
        = List.range S := by
      have h1 : (List.range S).map ((fun i => i % S) ∘ fun x => k * S + x)
          = (List.range S).map (fun i => i % S) := by
        refine List.map_congr_left ?_
        intro a _
        show (k * S + a) % S = a % S
        rw [Nat.mul_comm k S, Nat.mul_add_mod]
      rw [h1, map_mod_range_self]
    rw [hblock, List.replicate_succ', List.flatten_append]
    refine congrArg (fun t => (List.replicate k (List.range S)).flatten ++ t) ?_
    show List.range S = List.range S ++ [].flatten
    rw [List.flatten_nil, List.append_nil]

/-- Each index `j < S` occurs exactly `k` times in `0, …, S-1` repeated `k`
times. -/
lemma count_flatten_replicate_range (S k j : Nat) (hj : j < S) :
    ((List.replicate k (List.range S)).flatten).count j = k := by
  rw [List.count_flatten, List.map_replicate,
    List.count_eq_one_of_mem (List.nodup_range S) (List.mem_range.mpr hj),
    List.sum_replicate, smul_eq_mul, Nat.mul_one]

/-! ### The claims -/

/-- C1 (round-robin fairness): for a pool constructed with size `S ≥ 1`, any
sequence of exactly `k * S` calls (any mix of `do_send` and `send`), issued
sequentially within `usize` range, selects the worker indices
`0, 1, …, S-1` repeated `k` times, so each of the `S` workers is selected
exactly `k` times. -/
theorem round_robin_fairness (S k : Nat) (hS : 1 ≤ S)
    (init_fn : σ → α × σ) (s : σ)
    (df : α → μ → DeliveryStatus) (dr : α → μ → Except MailboxError ρ)
    (cs : List (Call μ)) (hlen : cs.length = k * S) (hrange : k * S ≤ USIZE) :
    selectedIndices df dr (new S init_fn s).1 cs
        = some ((List.replicate k (List.range S)).flatten) ∧
    ∀ j, j < S → ((List.replicate k (List.range S)).flatten).count j = k := by
  have hw : (new S init_fn s).1.workers.length = S := new_workers_length S init_fn s
  constructor
  · have hrun := callTrace_run df dr (new S init_fn s).1.workers (by omega) cs 0
      USIZE_pos (by omega)
    have hpool : (new S init_fn s).1 = ⟨(new S init_fn s).1.workers, 0⟩ := rfl
    rw [selectedIndices, hpool, hrun, Option.map_some']
    refine congrArg some ?_
    show ((List.range cs.length).map
        (fun i => (0 + i, (0 + i) % (new S init_fn s).1.workers.length))).map Prod.snd
      = (List.replicate k (List.range S)).flatten
    rw [List.map_map, hw, hlen, ← map_mod_range_mul S k]
    refine List.map_congr_left ?_
    intro a _
    show (0 + a) % S = a % S
    rw [Nat.zero_add]
  · intro j hj
    exact count_flatten_replicate_range S k j hj

/-- C1 witness: a pool of size 2, `k = 2`, four mixed-mode calls select
workers `0, 1, 0, 1`, each worker exactly twice. -/
theorem round_robin_fairness_witness :
    selectedIndices (fun (_a _m : Nat) => DeliveryStatus.delivered)
        (fun (_a _m : Nat) => (Except.ok 0 : Except MailboxError Nat))
        (new 2 (fun t : Nat => (t, t + 1)) 0).1
        [Call.fire 0, Call.request 1, Call.fire 2, Call.request 3]
      = some [0, 1, 0, 1] ∧
    List.count 0 ((List.replicate 2 (List.range 2)).flatten) = 2 := by
  have h := round_robin_fairness 2 2 (by decide) (fun t : Nat => (t, t + 1)) 0
    (fun (_a _m : Nat) => DeliveryStatus.delivered)
    (fun (_a _m : Nat) => (Except.ok 0 : Except MailboxError Nat))
    [Call.fire 0, Call.request 1, Call.fire 2, Call.request 3]
    (by decide) (by decide)
  refine ⟨?_, h.2 0 (by decide)⟩
  rw [h.1]
  rfl

/-- C2 counterexample: construction with `size = 0` is NOT rejected.
`Pool::new(0, init_fn)` runs `(0..0).map(..)` and returns a pool with an
empty worker list; the very first `do_send`/`send` call then evaluates
`current % 0` and panics (remainder by zero), modelled as `none`. This
refutes both halves of the claim: construction returns a pool, and that pool
panics on first use. -/
theorem size_zero_not_rejected :
    (new 0 (fun t : Nat => (t, t + 1)) 0).1.workers = [] ∧
    next_worker (new 0 (fun t : Nat => (t, t + 1)) 0).1 = none ∧
    do_send (new 0 (fun t : Nat => (t, t + 1)) 0).1
        (fun (_a _m : Nat) => DeliveryStatus.delivered) 0 = none ∧
    send (new 0 (fun t : Nat => (t, t + 1)) 0).1
        (fun (_a _m : Nat) => (Except.ok 0 : Except MailboxError Nat)) 0 = none :=
  ⟨rfl, rfl, rfl, rfl⟩

/-- C2 amended: constructing a pool with `size = 0` is not rejected —
`new` always returns a pool; with `size = 0` the worker list is empty and
every subsequent `do_send` or `send` call panics (modulo-by-zero) instead of
dispatching. -/
theorem size_zero_pool_first_use_fails (init_fn : σ → α × σ) (s : σ)
    (df : α → μ → DeliveryStatus) (dr : α → μ → Except MailboxError ρ) (m : μ) :
    (new 0 init_fn s).1.workers = [] ∧
    next_worker (new 0 init_fn s).1 = none ∧
    do_send (new 0 init_fn s).1 df m = none ∧
    send (new 0 init_fn s).1 dr m = none :=
  ⟨rfl, rfl, rfl, rfl⟩

/-- C3: for a non-empty pool, `next_worker` returns the old cursor value's
worker `workers[fetched % size]` and stores the incremented cursor
(`fetch_add` wraps at `usize` range); consequently one `do_send` or `send`
call advances the cursor by exactly one. -/
theorem next_worker_fetch_add (p : Pool α) (h : 0 < p.workers.length)
    (df : α → μ → DeliveryStatus) (dr : α → μ → Except MailboxError ρ) (m : μ) :
    next_worker p
        = some (p.workers.get ⟨p.current % p.workers.length, Nat.mod_lt p.current h⟩,
            ⟨p.workers, (p.current + 1) % USIZE⟩) ∧
    (do_send p df m).map (fun r => r.2.current) = some ((p.current + 1) % USIZE) ∧
    (send p dr m).map (fun r => r.2.current) = some ((p.current + 1) % USIZE) := by
  obtain ⟨ws, c⟩ := p
  refine ⟨next_worker_nonempty ws c h, ?_, ?_⟩
  · rw [do_send_step ws c h df m]
    rfl
  · rw [send_step ws c h dr m]
    rfl

/-- C3 witness: on the pool `⟨[10, 20, 30], 5⟩` the call fetches cursor 5,
selects index `5 % 3 = 2` (worker 30), and stores cursor 6. -/
theorem next_worker_fetch_add_witness :
    (next_worker (⟨[10, 20, 30], 5⟩ : Pool Nat)).map (fun r => (r.1, r.2.current))
        = some (30, 6) ∧
    (do_send (⟨[10, 20, 30], 5⟩ : Pool Nat)
        (fun (_a _m : Nat) => DeliveryStatus.delivered) 0).map (fun r => r.2.current)
      = some 6 ∧
    (send (⟨[10, 20, 30], 5⟩ : Pool Nat)
        (fun (_a _m : Nat) => (Except.ok 0 : Except MailboxError Nat)) 0).map
          (fun r => r.2.current)
      = some 6 := by
  have h := next_worker_fetch_add (⟨[10, 20, 30], 5⟩ : Pool Nat) (by decide)
    (fun (_a _m : Nat) => DeliveryStatus.delivered)
    (fun (_a _m : Nat) => (Except.ok 0 : Except MailboxError Nat)) 0
  refine ⟨?_, ?_, ?_⟩
  · rw [h.1]; rfl
  · rw [h.2.1]; rfl
  · rw [h.2.2]; rfl

/-- C4 (size invariant / immutability): `new` produces exactly `size` worker
handles, and no operation — `next_worker`, `do_send` or `send` — ever changes
the worker list of the pool it returns. -/
theorem workers_never_mutated (p : Pool α) (size : Nat) (init_fn : σ → α × σ)
    (s : σ) (df : α → μ → DeliveryStatus) (dr : α → μ → Except MailboxError ρ)
    (m : μ) :
    (new size init_fn s).1.workers.length = size ∧
    (∀ w q, next_worker p = some (w, q) → q.workers = p.workers) ∧
    (∀ u q, do_send p df m = some (u, q) → q.workers = p.workers) ∧
    (∀ r q, send p dr m = some (r, q) → q.workers = p.workers) := by
  have hnw : ∀ w q, next_worker p = some (w, q) → q.workers = p.workers := by
    intro w q hq
    unfold next_worker at hq
    cases hl : p.workers[p.current % p.workers.length]? with
    | none => rw [hl] at hq; exact absurd hq (by simp)
    | some x =>
      rw [hl] at hq
      have hx : (x, (⟨p.workers, (p.current + 1) % USIZE⟩ : Pool α)) = (w, q) :=
        Option.some.inj hq
      have hxq : (⟨p.workers, (p.current + 1) % USIZE⟩ : Pool α) = q :=
        congrArg Prod.snd hx
      rw [← hxq]
  refine ⟨new_workers_length size init_fn s, hnw, ?_, ?_⟩
  · intro u q hq
    unfold do_send at hq
    cases hn : next_worker p with
    | none => rw [hn] at hq; exact absurd hq (by simp)
    | some wp =>
      rw [hn, Option.map_some'] at hq
      have hq2 : q = wp.2 := by
        cases hd : df wp.1 m <;> rw [hd] at hq <;>
          exact (congrArg Prod.snd (Option.some.inj hq)).symm
      rw [hq2]
      exact hnw wp.1 wp.2 (by rw [hn])
  · intro r q hq
    unfold send at hq
    cases hn : next_worker p with
    | none => rw [hn] at hq; exact absurd hq (by simp)
    | some wp =>
      rw [hn, Option.map_some'] at hq
      have hq2 : q = wp.2 := (congrArg Prod.snd (Option.some.inj hq)).symm
      rw [hq2]
      exact hnw wp.1 wp.2 (by rw [hn])

/-- C4 witness: a pool of size 2 has 2 workers, and a concrete `next_worker`
step leaves the worker list `[5, 7]` unchanged. -/
theorem workers_never_mutated_witness :
    (new 2 (fun t : Nat => (t, t + 1)) 0).1.workers.length = 2 ∧
    Pool.workers (⟨[5, 7], 4⟩ : Pool Nat) = Pool.workers (⟨[5, 7], 3⟩ : Pool Nat) := by
  have h := workers_never_mutated (⟨[5, 7], 3⟩ : Pool Nat) 2 (fun t : Nat => (t, t + 1))
    0 (fun (_a _m : Nat) => DeliveryStatus.delivered)
    (fun (_a _m : Nat) => (Except.ok 0 : Except MailboxError Nat)) 0
  exact ⟨h.1, h.2.1 7 ⟨[5, 7], 4⟩ rfl⟩

/-- C5: `new(size, init_fn)` invokes the factory exactly `size` times —
instrumented with an invocation counter, the counter advances from `s` to
`s + size` by the time `new` returns — and the resulting handles are stored
in creation order. -/
theorem new_factory_invocations (size : Nat) (make : Nat → α) (s : Nat) :
    (new size (fun t => (make t, t + 1)) s).2 = s + size ∧
    (new size (fun t => (make t, t + 1)) s).1.workers
        = (List.range size).map (fun i => make (s + i)) ∧
    (new size (fun t => (make t, t + 1)) s).1.workers.length = size := by
  have h := newWorkers_counting make size s
  refine ⟨?_, ?_, new_workers_length size (fun t => (make t, t + 1)) s⟩
  · show (newWorkers (fun t => (make t, t + 1)) size s).2 = s + size
    rw [h]
  · show (newWorkers (fun t => (make t, t + 1)) size s).1
        = (List.range size).map (fun i => make (s + i))
    rw [h]

/-- C6: `send` resolves to exactly the substrate's delivery outcome for the
selected worker — one of `Ok(reply)` or `Err(MailboxError)` — so a delivery
failure reported by the mailbox substrate is surfaced verbatim to the caller,
never swallowed. -/
theorem send_surfaces_delivery_result (p : Pool α) (h : 0 < p.workers.length)
    (dr : α → μ → Except MailboxError ρ) (m : μ) :
    ∃ w q, next_worker p = some (w, q) ∧
      send p dr m = some (dr w m, q) ∧
      ((∃ v, dr w m = Except.ok v) ∨ (∃ e, dr w m = Except.error e)) := by
  obtain ⟨ws, c⟩ := p
  refine ⟨ws.get ⟨c % ws.length, Nat.mod_lt c h⟩, ⟨ws, (c + 1) % USIZE⟩,
    next_worker_nonempty ws c h, send_step ws c h dr m, ?_⟩
  cases hr : dr (ws.get ⟨c % ws.length, Nat.mod_lt c h⟩) m with
  | ok v => exact Or.inl ⟨v, rfl⟩
  | error e => exact Or.inr ⟨e, rfl⟩

/-- C6 witness: with a substrate that reports `MailboxError::Closed`, `send`
returns exactly that error. -/
theorem send_surfaces_delivery_result_witness :
    (send (⟨[10, 20], 0⟩ : Pool Nat)
        (fun (_a _m : Nat) => (Except.error MailboxError.closed : Except MailboxError Nat))
        0).map Prod.fst
      = some (Except.error MailboxError.closed) := by
  obtain ⟨w, q, h1, h2, h3⟩ := send_surfaces_delivery_result (⟨[10, 20], 0⟩ : Pool Nat)
    (by decide)
    (fun (_a _m : Nat) => (Except.error MailboxError.closed : Except MailboxError Nat)) 0
  rw [h2]
  rfl

/-- C7: `do_send` exposes no error channel: its caller-visible result is the
unit value determined by worker selection alone — it is identical for every
substrate delivery outcome, so a delivery failure is silently dropped, and the
call completes right after `next_worker` (no reply is awaited). -/
theorem do_send_no_error_channel (p : Pool α)
    (df dg : α → μ → DeliveryStatus) (m : μ) :
    do_send p df m = (next_worker p).map (fun wp => ((), wp.2)) ∧
    do_send p df m = do_send p dg m := by
  have key : ∀ d : α → μ → DeliveryStatus,
      do_send p d m = (next_worker p).map (fun wp => ((), wp.2)) := by
    intro d
    unfold do_send
    cases hn : next_worker p with
    | none => rfl
    | some wp =>
      rw [Option.map_some', Option.map_some']
      show some (match d wp.1 m with
          | DeliveryStatus.delivered => ((), wp.2)
          | DeliveryStatus.dropped => ((), wp.2)) = some ((), wp.2)
      cases d wp.1 m <;> rfl
  exact ⟨key df, (key df).trans (key dg).symm⟩

/-- C8: starting from a freshly constructed pool, the fetched cursor values of
any mixed sequence of calls within `usize` range are `0, 1, 2, …` — strictly
increasing, never wrapping — while the derived worker index is the fetched
value reduced modulo the pool size. -/
theorem cursor_monotone (S : Nat) (hS : 1 ≤ S) (init_fn : σ → α × σ) (s : σ)
    (df : α → μ → DeliveryStatus) (dr : α → μ → Except MailboxError ρ)
    (cs : List (Call μ)) (hrange : cs.length ≤ USIZE) :
    fetchedValues df dr (new S init_fn s).1 cs = some (List.range cs.length) ∧
    List.Pairwise (fun a b => a < b) (List.range cs.length) ∧
    selectedIndices df dr (new S init_fn s).1 cs
        = some ((List.range cs.length).map (fun v => v % S)) := by
  have hw : (new S init_fn s).1.workers.length = S := new_workers_length S init_fn s
  have hpool : (new S init_fn s).1 = ⟨(new S init_fn s).1.workers, 0⟩ := rfl
  have hrun := callTrace_run df dr (new S init_fn s).1.workers (by omega) cs 0
    USIZE_pos (by omega)
  refine ⟨?_, List.pairwise_lt_range cs.length, ?_⟩
  · rw [fetchedValues, hpool, hrun, Option.map_some']
    refine congrArg some ?_
    rw [List.map_map]
    have h1 : (List.range cs.length).map
          (Prod.fst ∘ fun i => (0 + i, (0 + i) % (new S init_fn s).1.workers.length))
        = (List.range cs.length).map id := by
      refine List.map_congr_left ?_
      intro a _
      show 0 + a = a
      rw [Nat.zero_add]
    rw [h1, List.map_id]
  · rw [selectedIndices, hpool, hrun, Option.map_some']
    refine congrArg some ?_
    rw [List.map_map, hw]
    refine List.map_congr_left ?_
    intro a _
    show (0 + a) % S = a % S
    rw [Nat.zero_add]

/-- C8 witness: three mixed-mode calls on a fresh pool of size 2 fetch the
strictly increasing cursor values `0, 1, 2`. -/
theorem cursor_monotone_witness :
    fetchedValues (fun (_a _m : Nat) => DeliveryStatus.delivered)
        (fun (_a _m : Nat) => (Except.ok 0 : Except MailboxError Nat))
        (new 2 (fun t : Nat => (t, t + 1)) 0).1
        [Call.fire 0, Call.request 1, Call.fire 2] = some [0, 1, 2] ∧
    List.Pairwise (fun a b => a < b) ([0, 1, 2] : List Nat) := by
  have h := cursor_monotone 2 (by decide) (fun t : Nat => (t, t + 1)) 0
    (fun (_a _m : Nat) => DeliveryStatus.delivered)
    (fun (_a _m : Nat) => (Except.ok 0 : Except MailboxError Nat))
    [Call.fire 0, Call.request 1, Call.fire 2] (by decide)
  constructor
  · rw [h.1]
    rfl
  · exact (show List.range 3 = [0, 1, 2] from rfl) ▸ h.2.1

/-- C9: any group of `N` calls on the same pool — the single atomic
`fetch_add` makes every concurrent interleaving linearize into such a
sequence — obtains pairwise distinct, strictly ordered cursor values. -/
theorem concurrent_cursor_values_distinct (ws : List α) (h : 0 < ws.length)
    (c : Nat) (df : α → μ → DeliveryStatus) (dr : α → μ → Except MailboxError ρ)
    (cs : List (Call μ)) (hcw : c < USIZE) (hrange : c + cs.length ≤ USIZE) :
    ∃ tr, fetchedValues df dr ⟨ws, c⟩ cs = some tr ∧
      List.Pairwise (fun a b => a < b) tr ∧ tr.Nodup := by
  have hrun := callTrace_run df dr ws h cs c hcw hrange
  have hpw : List.Pairwise (fun a b => a < b)
      ((List.range cs.length).map fun i => c + i) := by
    rw [List.pairwise_map]
    exact (List.pairwise_lt_range cs.length).imp (fun hab => by omega)
  refine ⟨(List.range cs.length).map fun i => c + i, ?_, hpw,
    hpw.imp (fun hab => Nat.ne_of_lt hab)⟩
  rw [fetchedValues, hrun, Option.map_some']
  refine congrArg some ?_
  rw [List.map_map]
  rfl

/-- C9 witness: two calls on a pool whose cursor stands at 5 obtain the
distinct cursor values 5 and 6. -/
theorem concurrent_cursor_values_distinct_witness :
    fetchedValues (fun (_a _m : Nat) => DeliveryStatus.delivered)
        (fun (_a _m : Nat) => (Except.ok 0 : Except MailboxError Nat))
        (⟨[0, 1], 5⟩ : Pool Nat) [Call.fire 0, Call.request 1] = some [5, 6] ∧
    ([5, 6] : List Nat).Nodup := by
  obtain ⟨tr, h1, h2, h3⟩ := concurrent_cursor_values_distinct [0, 1] (by decide) 5
    (fun (_a _m : Nat) => DeliveryStatus.delivered)
    (fun (_a _m : Nat) => (Except.ok 0 : Except MailboxError Nat))
    [Call.fire 0, Call.request 1] (by decide) (by decide)
  have he : tr = [5, 6] := by
    have h4 : some tr = some ([5, 6] : List Nat) := by
      rw [← h1]
      rfl
    exact Option.some.inj h4
  exact ⟨he ▸ h1, he ▸ h3⟩

/-- C10: on a non-empty pool the derived index `current % workers.len()` is
always strictly below `workers.len()`, so the `workers[index]` lookup in
`next_worker` is in bounds and `next_worker` always returns a worker. -/
theorem next_worker_index_in_bounds (p : Pool α) (h : 0 < p.workers.length) :
    p.current % p.workers.length < p.workers.length ∧
    p.workers[p.current % p.workers.length]?
        = some (p.workers.get ⟨p.current % p.workers.length, Nat.mod_lt p.current h⟩) ∧
    next_worker p
        = some (p.workers.get ⟨p.current % p.workers.length, Nat.mod_lt p.current h⟩,
            ⟨p.workers, (p.current + 1) % USIZE⟩) := by
  obtain ⟨ws, c⟩ := p
  exact ⟨Nat.mod_lt c h, List.getElem?_eq_getElem (Nat.mod_lt c h),
    next_worker_nonempty ws c h⟩

/-- C10 witness: on the pool `⟨[10, 20, 30], 7⟩`, the index `7 % 3 = 1` is in
bounds and `next_worker` returns worker 20. -/
theorem next_worker_index_in_bounds_witness :
    7 % 3 < 3 ∧ ([10, 20, 30] : List Nat)[7 % 3]? = some 20 ∧
    (next_worker (⟨[10, 20, 30], 7⟩ : Pool Nat)).map Prod.fst = some 20 := by
  have h := next_worker_index_in_bounds (⟨[10, 20, 30], 7⟩ : Pool Nat) (by decide)
  exact ⟨h.1, h.2.1.trans rfl, (congrArg (Option.map Prod.fst) h.2.2).trans rfl⟩

end ActorPool
